import Mathlib

/-!
# Verification of the `geo.utils` chunking and windowing module

Shallow embedding of `geo/utils/__init__.py`.

A labeled container (`xarray.Dataset`) is abstracted along the single
dimension an operation acts on: it becomes a `List α`, each element being
the slab of data at one index of that dimension.  Index-range selection
(`ds.isel(dim=slice(low, high))`) becomes take/drop on the list, and
concatenation along the dimension (`xr.concat`) becomes list append.
Machine floats in `int(np.ceil(n / chunks))` are modelled as exact
ceiling division on naturals.

N-dimensional arrays (`numpy.ndarray`) are embedded as rank-indexed
nested lists (`Tensor α r`); `np.array_split` and `np.concatenate`
are translated from numpy's documented behaviour on a given axis.

Fallible code paths (Python `raise`) are modelled with `Except String`.
-/

namespace GeoUtils

variable {α : Type} {β : Type}

/-- Python slice `xs[low:high]` for non-negative bounds: clamps `high`
to the list length and yields `[]` when `low ≥ high`. -/
def pySlice (low high : Nat) (xs : List α) : List α :=
  (xs.take high).drop low

/-- `chunksize = int(np.ceil(n / chunks))` from `xr_split`
(line 258 of the source), as exact ceiling division. -/
def chunkSize (n k : Nat) : Nat := (n + k - 1) / k

/-- `xr_split(ds, dim, chunks, buffer=0)` (source lines 240-264):
`n = ds.sizes[dim]`, `chunksize = ceil(n / chunks)`, and for each
`i in range(chunks)` yields `ds.isel(dim=slice(max(i*chunksize - buffer, 0),
min((i+1)*chunksize + buffer, n)))`.  The generator is materialised as the
list of chunks in yield order.  `max(· , 0)` is truncated subtraction on
`Nat`; the `min(·, n)` clamp is performed by `pySlice` itself. -/
def xr_split (ds : List α) (k buffer : Nat) : List (List α) :=
  (List.range k).map fun i =>
    pySlice (i * chunkSize ds.length k - buffer)
            ((i + 1) * chunkSize ds.length k + buffer) ds

/-- `ds_list[0].isel(dim=slice(None, -buffer))`: drop the trailing
`buffer` elements. -/
def trimFirst (b : Nat) (xs : List α) : List α := xs.take (xs.length - b)

/-- `ds.isel(dim=slice(buffer, -buffer))`: drop `buffer` elements
from both ends. -/
def trimMiddle (b : Nat) (xs : List α) : List α :=
  (xs.take (xs.length - b)).drop b

/-- `ds_list[-1].isel(dim=slice(buffer, None))`: drop the leading
`buffer` elements. -/
def trimLast (b : Nat) (xs : List α) : List α := xs.drop b

/-- `xr_merge(ds_list, dim, buffer=0)` (source lines 267-289): when
`buffer > 0`, the first container is trimmed at its trailing end, the
containers `ds_list[1:-1]` at both ends, and `ds_list[-1]` at its leading
end; the parts are concatenated with `xr.concat` along `dim`.  When
`buffer = 0` the list is concatenated as is.  On an empty list Python
raises (`IndexError` at `ds_list[0]`, or `ValueError` inside
`xr.concat([])`), modelled as `.error`.  Note the source performs no
length validation. -/
def xr_merge (dsList : List (List α)) (buffer : Nat) : Except String (List α) :=
  match dsList with
  | [] => .error "cannot merge an empty list of containers"
  | first :: rest =>
    if 0 < buffer then
      .ok (trimFirst buffer first
           ++ (rest.dropLast.map (trimMiddle buffer)).flatten
           ++ trimLast buffer (rest.getLastD first))
    else
      .ok (first :: rest).flatten

/-! ## N-dimensional arrays

`numpy.ndarray` of rank `r` is embedded as `r`-fold nested lists. -/

/-- Rank-indexed nested-list embedding of `numpy.ndarray`: a rank-0
tensor is a scalar, a rank-`(r+1)` tensor is the list of its rank-`r`
slices along axis 0. -/
@[reducible] def Tensor (α : Type) : Nat → Type
  | 0 => α
  | r + 1 => List (Tensor α r)

/-- Default tensor (scalar default, or the empty list), used only as the
junk value of unreachable branches. -/
def Tensor.dflt [Inhabited α] : (r : Nat) → Tensor α r
  | 0 => (default : α)
  | _ + 1 => []

instance [Inhabited α] {r : Nat} : Inhabited (Tensor α r) := ⟨Tensor.dflt r⟩

/-- The per-section sizes used by `np.array_split(ary, k)`:
`Neach, extras = divmod(Ntotal, k)`, then `extras` sections of size
`Neach + 1` followed by `k - extras` sections of size `Neach`. -/
def splitSizes (n k : Nat) : List Nat :=
  List.replicate (n % k) (n / k + 1) ++ List.replicate (k - n % k) (n / k)

/-- Cut `xs` into consecutive pieces of the given sizes. -/
def splitBySizes : List Nat → List β → List (List β)
  | [], _ => []
  | s :: ss, xs => xs.take s :: splitBySizes ss (xs.drop s)

/-- `np.array_split(xs, k)` along a list: consecutive sections with the
numpy size distribution (remainder to the leading sections). -/
def array_split (xs : List β) (k : Nat) : List (List β) :=
  splitBySizes (splitSizes xs.length k) xs

/-- `np.array_split(t, k, axis=a)` on the nested-list embedding: at axis 0
split the outer list; at axis `a+1` the `j`-th part takes the `j`-th part
of each rank-`r` slice.  An axis at or beyond the rank (where numpy raises
`AxisError`) returns `[]`; valid calls keep `a` below the rank. -/
def splitAxis [Inhabited α] (k : Nat) : {r : Nat} → Nat → Tensor α r → List (Tensor α r)
  | 0, _, _ => []
  | _ + 1, 0, t => array_split t k
  | r + 1, a + 1, t =>
    (List.range k).map fun j =>
      (t : List (Tensor α r)).map fun e => (splitAxis k a e).getD j default

/-- Binary `np.concatenate` along axis `a`: append at axis 0, zip the
slices at deeper axes.  Rank 0 (where numpy raises) returns the left
operand. -/
def concat2 : {r : Nat} → Nat → Tensor α r → Tensor α r → Tensor α r
  | 0, _, t, _ => t
  | _ + 1, 0, t, u => (t : List _) ++ u
  | _ + 1, a + 1, t, u => List.zipWith (concat2 a) t u

/-- `np.concatenate(ts, axis=a)` for a list of tensors; numpy raises on an
empty list, modelled by the default tensor (unreached in valid calls). -/
def concatAxis [Inhabited α] (a : Nat) : List (Tensor α r) → Tensor α r
  | [] => default
  | t :: ts => ts.foldl (concat2 a) t

/-- `chunks(l, n)` (source lines 98-117): yields `l[i:i+n]` for
`i = 0, n, 2n, ...` below `len(l)`, i.e. `ceil(len(l)/n)` consecutive
slices of size `n` (the last possibly shorter). -/
def chunksOf (l : List β) (n : Nat) : List (List β) :=
  (List.range ((l.length + n - 1) / n)).map fun i => (l.drop (i * n)).take n

/-- The loop of `block_split` (source lines 206-210): for each axis in
turn, split every tensor of the running list along that axis and flatten
the list of lists. -/
def splitSteps [Inhabited α] : List Nat → Nat → List (Tensor α r) → List (Tensor α r)
  | [], _, res => res
  | b :: bs, axis, res =>
    splitSteps bs (axis + 1) ((res.map (splitAxis b axis)).flatten)

/-- `block_split(array, blocks)` (source lines 175-210): raises
`ValueError` when `len(blocks) != array.ndim`, otherwise runs the
per-axis splitting loop starting from `[array]`. -/
def block_split [Inhabited α] (t : Tensor α r) (blocks : List Nat) :
    Except String (List (Tensor α r)) :=
  if blocks.length ≠ r then
    .error "Length of blocks must be equal to the array dimensionality."
  else
    .ok (splitSteps blocks 0 [t])

/-- The loop of `block_merge` (source lines 232-237): iterates over
`blocks[::-1]` with `axis = len(blocks) - i - 1`, regrouping the running
list into groups of `nblocks` and concatenating each group along `axis`.
The recursion processes the deeper axes first, exactly as the reversed
Python loop does. -/
def mergeSteps [Inhabited α] : List Nat → Nat → List (Tensor α r) → List (Tensor α r)
  | [], _, res => res
  | b :: bs, axis, res =>
    (chunksOf (mergeSteps bs (axis + 1) res) b).map (concatAxis axis)

/-- `block_merge(array_list, blocks)` (source lines 213-237): raises
`ValueError` when `len(array_list) != np.prod(blocks)`, otherwise runs
the reversed per-axis concatenation loop and returns `result[0]`. -/
def block_merge [Inhabited α] (ts : List (Tensor α r)) (blocks : List Nat) :
    Except String (Tensor α r) :=
  if ts.length ≠ blocks.prod then
    .error "Length of array list must be equal to the product of the shape elements."
  else
    .ok ((mergeSteps blocks 0 ts).getD 0 default)

/-! ## The parallel dispatcher

A labeled container is modelled as its list of dimension names together
with its slabs along the dimension the dispatcher operates on. -/

/-- A labeled container: named dimensions (in declaration order) plus the
data along the dimension being split. -/
structure Dataset (α : Type) where
  dims : List String
  cells : List α

/-- The wrapper built by `parallel(fn, dim, chunks, ...)` (source lines
292-356), applied to a dataset: the defaults `dim = 'lat'` and
`chunks = mp.cpu_count()` are resolved first; the wrapper raises
`ValueError` when `dim` is not in the dataset, otherwise re-chunks (a
value-preserving hint, identity here), splits with `xr_split`, and wraps
`fn` over each part — one deferred task per part.  The returned list is
the list of task payloads; an `.error` result means no task was built. -/
def parallelInvoke (fn : List α → List α) (dim : Option String)
    (chunksArg : Option Nat) (buffer : Nat) (cpuCount : Nat)
    (ds : Dataset α) : Except String (List (List α)) :=
  let d := dim.getD "lat"
  let k := chunksArg.getD cpuCount
  if d ∈ ds.dims then
    .ok ((xr_split ds.cells k buffer).map fn)
  else
    .error ("The dataset has no dimension " ++ d ++ ".")

/-! ## Shared lemmas -/

theorem pySlice_eq_drop_take (low high : Nat) (xs : List α) :
    pySlice low high xs = (xs.drop low).take (high - low) :=
  List.drop_take high low xs

theorem length_xr_split (ds : List α) (k b : Nat) :
    (xr_split ds k b).length = k := by
  simp [xr_split]

/-- `n ≤ k * ⌈n/k⌉` for `k ≥ 1`. -/
theorem le_mul_chunkSize (n k : Nat) (hk : 0 < k) : n ≤ k * chunkSize n k := by
  have h := Nat.div_add_mod (n + k - 1) k
  have hr : (n + k - 1) % k < k := Nat.mod_lt _ hk
  unfold chunkSize
  omega

/-- Concatenating the consecutive segments `[i*cs, (i+1)*cs)` of `xs` for
`i < m`, followed by the tail from `m*cs`, recovers `xs`. -/
theorem seg_tiling (xs : List α) (cs : Nat) : ∀ m : Nat,
    ((List.range m).map fun i => (xs.drop (i * cs)).take cs).flatten
      ++ xs.drop (m * cs) = xs
  | 0 => by simp
  | m + 1 => by
    rw [List.range_succ, List.map_append, List.flatten_append]
    simp only [List.map_cons, List.map_nil, List.flatten_cons, List.flatten_nil,
      List.append_nil]
    rw [List.append_assoc, show (m + 1) * cs = m * cs + cs from by ring,
      ← List.drop_drop, List.take_append_drop]
    exact seg_tiling xs cs m

theorem xr_merge_zero_buffer (dss : List (List α)) (h : dss ≠ []) :
    xr_merge dss 0 = .ok dss.flatten := by
  cases dss with
  | nil => exact absurd rfl h
  | cons a l => simp [xr_merge]

/-! ## Claims about `xr_split` / `xr_merge` -/

/-- C3: `xr_split` yields exactly `chunkCount` sub-containers, in
increasing chunk order, the `i`-th being the index-range selection
`[max(i*chunkSize - buffer, 0), min((i+1)*chunkSize + buffer, n))` along
the dimension, with `chunkSize = ceil(n / chunkCount)` (on `Nat`,
`max(x - y, 0)` is truncated subtraction `x - y`). -/
theorem xr_split_yields_index_ranges (ds : List α) (k b : Nat) (_hk : 1 ≤ k) :
    (xr_split ds k b).length = k ∧
    ∀ i, i < k →
      (xr_split ds k b)[i]? =
        some ((ds.drop (i * chunkSize ds.length k - b)).take
          (min ((i + 1) * chunkSize ds.length k + b) ds.length
            - (i * chunkSize ds.length k - b))) := by
  refine ⟨length_xr_split ds k b, fun i hi => ?_⟩
  rw [xr_split]
  simp only [List.getElem?_map, List.getElem?_range, hi, reduceIte,
    Option.map_some, Option.map_some']
  congr 1
  rw [pySlice_eq_drop_take]
  rw [List.take_eq_take]
  simp only [List.length_drop]
  omega

/-- Witness for C3 at `n = 10`, `k = 3`, `b = 2` (the worked example of
the specification: ranges `[0,6)`, `[2,10)`, `[6,10)`). -/
theorem xr_split_yields_index_ranges_witness :
    (1 ≤ 3 ∧
      (xr_split (List.range 10) 3 2).length = 3 ∧
      ∀ i, i < 3 →
        (xr_split (List.range 10) 3 2)[i]? =
          some (((List.range 10).drop (i * chunkSize 10 3 - 2)).take
            (min ((i + 1) * chunkSize 10 3 + 2) 10 - (i * chunkSize 10 3 - 2)))) := by
  refine ⟨by decide, ?_⟩
  have h := xr_split_yields_index_ranges (List.range 10) 3 2 (by decide)
  simpa using h

/-- C10: merging a single-element container list with `buffer > 0`
applies both the first-container trim (drop the trailing `buffer`
elements) and the last-container trim (drop the leading `buffer`
elements) to the same container and concatenates the two copies, so the
merged size along the dimension is `2*(n - buffer)`, not `n`. -/
theorem xr_merge_singleton_duplicates (x : List α) (b : Nat) (hb : 0 < b) :
    xr_merge [x] b = .ok (trimFirst b x ++ trimLast b x) ∧
    (trimFirst b x ++ trimLast b x).length = 2 * (x.length - b) := by
  constructor
  · simp [xr_merge, hb]
  · simp only [List.length_append, trimFirst, trimLast, List.length_take,
      List.length_drop]
    omega

/-- Witness for C10 at `x = [0,1,2]`, `b = 1`: the merged result is
`[0,1,1,2]`, of size `4 = 2*(3-1)`. -/
theorem xr_merge_singleton_duplicates_witness :
    xr_merge [([0, 1, 2] : List Nat)] 1
        = .ok (trimFirst 1 [0, 1, 2] ++ trimLast 1 [0, 1, 2]) ∧
      (trimFirst 1 ([0, 1, 2] : List Nat) ++ trimLast 1 [0, 1, 2]).length
        = 2 * (([0, 1, 2] : List Nat).length - 1) :=
  xr_merge_singleton_duplicates [0, 1, 2] 1 (by decide)

/-- Counterexample to C1 as stated: for the container `[0,1,2]` (dimension
size `n = 3 ≥ 1`), chunk count `1 ≥ 1` and buffer `1` with
`0 ≤ 1 < chunkSize = ceil(3/1) = 3`, merging the split does not return the
original container: the single chunk is duplicated (cf. C10) and the
result is `[0,1,1,2]`. -/
theorem xr_roundtrip_cx :
    1 ≤ ([0, 1, 2] : List Nat).length ∧ 1 ≤ 1 ∧ 1 < chunkSize 3 1 ∧
    xr_merge (xr_split ([0, 1, 2] : List Nat) 1 1) 1 = .ok [0, 1, 1, 2] ∧
    ([0, 1, 1, 2] : List Nat) ≠ [0, 1, 2] :=
  ⟨by decide, le_refl 1, by decide, rfl, by decide⟩

/-- C1 (amended): windowed round trip.  For a container of size `n ≥ 1`
along the dimension, chunk count `k ≥ 1` and `0 ≤ buffer < chunkSize`,
merging the split returns the container exactly, provided additionally
that `buffer = 0`, or that `k ≥ 2` and `(k-1)*chunkSize + buffer ≤ n`
(the windows fit without clamping; this always holds in particular when
`k*chunkSize = n` and `buffer < chunkSize`).  Without the proviso the
round trip fails, see the counterexample `xr_roundtrip_cx`. -/
theorem xr_split_merge_roundtrip (ds : List α) (k b : Nat) (hk : 1 ≤ k)
    (hb : b < chunkSize ds.length k)
    (hcond : b = 0 ∨ (2 ≤ k ∧ (k - 1) * chunkSize ds.length k + b ≤ ds.length)) :
    xr_merge (xr_split ds k b) b = .ok ds := by
  rcases Nat.eq_zero_or_pos b with rfl | hbpos
  · -- buffer = 0: plain concatenation of the clipped core segments
    have hne : xr_split ds k 0 ≠ [] := by
      have hlen := length_xr_split ds k 0
      intro hcontra
      rw [hcontra] at hlen
      simp only [List.length_nil] at hlen
      omega
    rw [xr_merge_zero_buffer _ hne]
    congr 1
    have hmap : xr_split ds k 0
        = (List.range k).map fun i =>
            (ds.drop (i * chunkSize ds.length k)).take (chunkSize ds.length k) := by
      rw [xr_split]
      refine List.map_congr_left fun i _ => ?_
      rw [pySlice_eq_drop_take]
      congr 1
      have h1 : (i + 1) * chunkSize ds.length k
          = i * chunkSize ds.length k + chunkSize ds.length k := by ring
      omega
    rw [hmap]
    have ht := seg_tiling ds (chunkSize ds.length k) k
    rw [List.drop_eq_nil_of_le (le_mul_chunkSize ds.length k (by omega)),
      List.append_nil] at ht
    exact ht
  · -- buffer > 0: first/middle/last trimming reconstructs the segments
    rcases hcond with rfl | ⟨hk2, hfit⟩
    · omega
    obtain ⟨k', rfl⟩ : ∃ k', k = k' + 2 := ⟨k - 2, by omega⟩
    have hfit' : (k' + 1) * chunkSize ds.length (k' + 2) + b ≤ ds.length := by
      have he : k' + 2 - 1 = k' + 1 := by omega
      rwa [he] at hfit
    set cs := chunkSize ds.length (k' + 2) with hcs
    have hn : ds.length ≤ (k' + 2) * cs := le_mul_chunkSize ds.length (k' + 2) (by omega)
    have hcs1 : cs ≤ (k' + 1) * cs := Nat.le_mul_of_pos_left cs (by omega)
    have hrange : List.range (k' + 2) = 0 :: ((List.range k').map Nat.succ ++ [k' + 1]) := by
      rw [show k' + 2 = (k' + 1) + 1 from rfl, List.range_succ_eq_map, List.range_succ,
        List.map_append]
      rfl
    -- the chunk list, with first / middle / last chunks made explicit
    have hL : xr_split ds (k' + 2) b
        = pySlice (0 * cs - b) ((0 + 1) * cs + b) ds
          :: ((List.range k').map
                (fun i => pySlice ((i + 1) * cs - b) ((i + 1 + 1) * cs + b) ds)
              ++ [pySlice ((k' + 1) * cs - b) ((k' + 1 + 1) * cs + b) ds]) := by
      have hcomp : (List.range k').map
            ((fun i => pySlice (i * cs - b) ((i + 1) * cs + b) ds) ∘ Nat.succ)
          = (List.range k').map
              (fun i => pySlice ((i + 1) * cs - b) ((i + 1 + 1) * cs + b) ds) :=
        List.map_congr_left fun i _ => by
          simp only [Function.comp_apply, Nat.succ_eq_add_one]
      rw [xr_split, hrange]
      simp only [List.map_cons, List.map_append, List.map_nil, List.map_map]
      rw [hcomp]
    rw [hL, xr_merge]
    simp only [if_pos hbpos, List.dropLast_concat, List.getLastD_concat]
    -- first chunk: trimming the trailing buffer leaves the segment [0, cs)
    have hA : trimFirst b (pySlice (0 * cs - b) ((0 + 1) * cs + b) ds)
        = (ds.drop (0 * cs)).take cs := by
      rw [pySlice_eq_drop_take, trimFirst]
      simp only [Nat.zero_mul, Nat.zero_add, Nat.one_mul, Nat.zero_sub, Nat.sub_zero,
        List.drop_zero, List.length_take, List.length_drop]
      rw [List.take_take, List.take_eq_take]
      omega
    -- middle chunks: trimming both buffers leaves [ (i+1)*cs, (i+2)*cs )
    have hmid : ∀ i, i < k' →
        trimMiddle b (pySlice ((i + 1) * cs - b) ((i + 1 + 1) * cs + b) ds)
          = (ds.drop ((i + 1) * cs)).take cs := by
      intro i hi
      have hPR : (i + 1) * cs + cs ≤ (k' + 1) * cs := by
        have h := Nat.mul_le_mul_right cs (show i + 2 ≤ k' + 1 by omega)
        calc (i + 1) * cs + cs = (i + 2) * cs := by ring
          _ ≤ (k' + 1) * cs := h
      have hcsP : cs ≤ (i + 1) * cs := Nat.le_mul_of_pos_left cs (by omega)
      rw [show (i + 1 + 1) * cs = (i + 1) * cs + cs from by ring,
        pySlice_eq_drop_take, trimMiddle]
      rw [show (i + 1) * cs + cs + b - ((i + 1) * cs - b) = cs + 2 * b from by omega]
      have hlen : (((ds.drop ((i + 1) * cs - b)).take (cs + 2 * b))).length = cs + 2 * b := by
        simp only [List.length_take, List.length_drop]
        omega
      rw [hlen, show cs + 2 * b - b = cs + b from by omega, List.take_take,
        show min (cs + b) (cs + 2 * b) = cs + b from by omega]
      rw [List.drop_take, List.drop_drop,
        show (i + 1) * cs - b + b = (i + 1) * cs from by omega,
        show cs + b - b = cs from by omega]
    have hMids : (((List.range k').map
          (fun i => pySlice ((i + 1) * cs - b) ((i + 1 + 1) * cs + b) ds)).map
            (trimMiddle b))
        = (List.range k').map (fun i => (ds.drop ((i + 1) * cs)).take cs) := by
      rw [List.map_map]
      refine List.map_congr_left fun i hi => ?_
      simpa [Function.comp] using hmid i (List.mem_range.mp hi)
    -- last chunk: trimming the leading buffer leaves the tail from (k'+1)*cs
    have hC : trimLast b (pySlice ((k' + 1) * cs - b) ((k' + 1 + 1) * cs + b) ds)
        = ds.drop ((k' + 1) * cs) := by
      rw [pySlice, trimLast]
      rw [List.take_of_length_le (show ds.length ≤ (k' + 1 + 1) * cs + b by
        have he : (k' + 1 + 1) * cs = (k' + 2) * cs := by ring
        omega)]
      rw [List.drop_drop, show (k' + 1) * cs - b + b = (k' + 1) * cs from by omega]
    rw [hA, hMids, hC]
    -- assemble with the tiling lemma at m = k' + 1
    have ht := seg_tiling ds cs (k' + 1)
    rw [List.range_succ_eq_map] at ht
    simp only [List.map_cons, List.map_map, List.flatten_cons, List.append_assoc] at ht
    rw [List.map_congr_left (fun i _ => by
      simp only [Function.comp_apply, Nat.succ_eq_add_one] :
        ∀ i ∈ List.range k',
          ((fun i => List.take cs (List.drop (i * cs) ds)) ∘ Nat.succ) i
            = (fun i => List.take cs (List.drop ((i + 1) * cs) ds)) i)] at ht
    rw [List.append_assoc, ht]

/-- Witness for the amended C1 at the specification's worked example:
`n = 10`, `k = 3`, `buffer = 2` (`chunkSize = 4`, and
`(3-1)*4 + 2 = 10 ≤ 10`). -/
theorem xr_split_merge_roundtrip_witness :
    xr_merge (xr_split (List.range 10) 3 2) 2 = .ok (List.range 10) :=
  xr_split_merge_roundtrip (List.range 10) 3 2 (by decide) (by decide)
    (Or.inr ⟨by decide, by decide⟩)

/-- C6 (behaviour of the code at the failing input): with `n = 10`,
`chunkCount = 3` and `buffer = 4 = chunkSize`, neither `xr_split` nor
`xr_merge` raises any error; the split yields its three (clamped) chunks
and the merge silently returns a container of the wrong size `8 ≠ 10`. -/
theorem xr_buffer_ge_chunkSize_no_error :
    chunkSize 10 3 = 4 ∧
    xr_split (List.range 10) 3 4
      = [[0, 1, 2, 3, 4, 5, 6, 7], [0, 1, 2, 3, 4, 5, 6, 7, 8, 9], [4, 5, 6, 7, 8, 9]] ∧
    xr_merge (xr_split (List.range 10) 3 4) 4 = .ok [0, 1, 2, 3, 4, 5, 8, 9] ∧
    ([0, 1, 2, 3, 4, 5, 8, 9] : List Nat).length ≠ (List.range 10).length :=
  ⟨rfl, rfl, rfl, by decide⟩

/-- Counterexample to C4 as stated: merging a list whose length (1) does
not match the chunk count of the originating split (2) does not fail —
`xr_merge` performs no length validation and returns a merged result. -/
theorem merge_length_validation_cx :
    (xr_split ([0, 1, 2, 3] : List Nat) 2 0).length = 2 ∧
    xr_merge ((xr_split ([0, 1, 2, 3] : List Nat) 2 0).take 1) 0 = .ok [0, 1] :=
  ⟨rfl, rfl⟩

/-- C4 (amended): `block_merge` fails with the length-mismatch error
whenever the list length differs from the product of the block counts
(returning no merged result), while `xr_merge` performs no length
validation at all: every non-empty container list merges to an `.ok`
result whatever its length. -/
theorem merge_length_validation [Inhabited α] {r : Nat} :
    (∀ (ts : List (Tensor α r)) (blocks : List Nat), ts.length ≠ blocks.prod →
      block_merge ts blocks
        = .error "Length of array list must be equal to the product of the shape elements.") ∧
    (∀ (dss : List (List α)) (b : Nat), dss ≠ [] → ∃ res, xr_merge dss b = .ok res) := by
  constructor
  · intro ts blocks h
    simp [block_merge, h]
  · intro dss b h
    cases dss with
    | nil => exact absurd rfl h
    | cons a l =>
      rw [xr_merge]
      split
      · exact ⟨_, rfl⟩
      · exact ⟨_, rfl⟩

/-- Witness for the amended C4: a 3-element list against block spec `[2]`
errors in `block_merge`; the 1-element list from `merge_length_validation_cx`
still merges in `xr_merge`. -/
theorem merge_length_validation_witness :
    block_merge ([[0], [1], [2]] : List (Tensor Nat 1)) [2]
        = .error "Length of array list must be equal to the product of the shape elements." ∧
    ∃ res, xr_merge ([[0, 1]] : List (List Nat)) 0 = .ok res :=
  ⟨(merge_length_validation (α := Nat) (r := 1)).1 [[0], [1], [2]] [2] (by decide),
   (merge_length_validation (α := Nat) (r := 1)).2 [[0, 1]] 0 (by decide)⟩

/-- C5: dispatcher fail-fast.  For any configured dimension name, if the
dimension is absent from the container the invocation returns the
dimension-not-found error and builds no task; if it is present, that
error is not raised and one task per chunk is built. -/
theorem parallel_fail_fast (fn : List α → List α) (d : String) (k : Option Nat)
    (b cpu : Nat) (ds : Dataset α) :
    (d ∉ ds.dims →
      parallelInvoke fn (some d) k b cpu ds
        = .error ("The dataset has no dimension " ++ d ++ ".")) ∧
    (d ∈ ds.dims →
      parallelInvoke fn (some d) k b cpu ds
        = .ok ((xr_split ds.cells (k.getD cpu) b).map fn)) := by
  constructor <;> intro h <;> simp [parallelInvoke, h]

/-- Witness for C5: dimension `"y"` absent from a container with
dimensions `["x"]` errors; dimension `"x"` present succeeds. -/
theorem parallel_fail_fast_witness :
    parallelInvoke id (some "y") (some 2) 0 4 (Dataset.mk ["x"] ([0, 1] : List Nat))
        = .error ("The dataset has no dimension " ++ "y" ++ ".") ∧
    parallelInvoke id (some "x") (some 2) 0 4 (Dataset.mk ["x"] ([0, 1] : List Nat))
        = .ok ((xr_split ([0, 1] : List Nat) 2 0).map id) :=
  ⟨(parallel_fail_fast id "y" (some 2) 0 4 (Dataset.mk ["x"] [0, 1])).1 (by decide),
   (parallel_fail_fast id "x" (some 2) 0 4 (Dataset.mk ["x"] [0, 1])).2 (by decide)⟩

/-- Counterexample to C9 as stated: a container whose first dimension is
`"time"` (and which has no dimension `"lat"`): invoking the dispatcher
configured without an explicit dimension does not split along the first
dimension — it raises the dimension-not-found error for the fixed
default name `'lat'`. -/
theorem parallel_default_dim_cx :
    (Dataset.mk ["time"] ([0, 1] : List Nat)).dims.head? = some "time" ∧
    parallelInvoke id none (some 1) 0 4 (Dataset.mk ["time"] [0, 1])
      = .error "The dataset has no dimension lat." :=
  ⟨rfl, rfl⟩

/-- C9 (amended): when configured without an explicit dimension the
dispatcher uses the fixed dimension name `'lat'` (not the container's
first dimension), and without an explicit chunk count it uses the
logical core count of the environment. -/
theorem parallel_defaults (fn : List α → List α) (b cpu : Nat) (ds : Dataset α) :
    parallelInvoke fn none none b cpu ds
      = parallelInvoke fn (some "lat") (some cpu) b 0 ds := rfl

/-! ## Lemmas about `array_split` and the axis-wise operations -/

theorem length_splitBySizes (ss : List Nat) :
    ∀ xs : List β, (splitBySizes ss xs).length = ss.length := by
  induction ss with
  | nil => intro xs; rfl
  | cons s ss ih => intro xs; simp [splitBySizes, ih]

theorem length_splitSizes (n k : Nat) (hk : 0 < k) :
    (splitSizes n k).length = k := by
  have := Nat.mod_lt n hk
  simp [splitSizes]
  omega

theorem sum_splitSizes (n k : Nat) (hk : 0 < k) : (splitSizes n k).sum = n := by
  have hm := Nat.mod_lt n hk
  have hd := Nat.div_add_mod n k
  simp only [splitSizes, List.sum_append, List.sum_replicate, smul_eq_mul]
  have h1 : n % k * (n / k + 1) = n % k * (n / k) + n % k := by ring
  have h2 : (k - n % k) * (n / k) = k * (n / k) - n % k * (n / k) :=
    Nat.sub_mul k (n % k) (n / k)
  have h3 : n % k * (n / k) ≤ k * (n / k) := Nat.mul_le_mul_right _ (le_of_lt hm)
  omega

theorem flatten_splitBySizes (ss : List Nat) :
    ∀ xs : List β, (splitBySizes ss xs).flatten = xs.take ss.sum := by
  induction ss with
  | nil => intro xs; simp [splitBySizes]
  | cons s ss ih =>
    intro xs
    simp only [splitBySizes, List.flatten_cons, ih, List.sum_cons, List.take_add]

theorem length_array_split (xs : List β) (k : Nat) (hk : 0 < k) :
    (array_split xs k).length = k := by
  rw [array_split, length_splitBySizes, length_splitSizes _ _ hk]

theorem flatten_array_split (xs : List β) (k : Nat) (hk : 0 < k) :
    (array_split xs k).flatten = xs := by
  rw [array_split, flatten_splitBySizes, sum_splitSizes _ _ hk, List.take_length]

theorem foldl_append_eq_flatten (ls : List (List β)) :
    ∀ x : List β, ls.foldl (· ++ ·) x = x ++ ls.flatten := by
  induction ls with
  | nil => intro x; simp
  | cons a t ih => intro x; simp [List.foldl_cons, ih, List.append_assoc]

theorem length_splitAxis [Inhabited α] :
    ∀ {r : Nat} (a k : Nat) (t : Tensor α r), a < r → 0 < k →
      (splitAxis k a t).length = k
  | 0, a, _, _, ha, _ => absurd ha (Nat.not_lt_zero a)
  | r + 1, 0, k, t, _, hk => length_array_split t k hk
  | r + 1, a + 1, k, t, _, _ => by simp [splitAxis]

/-- Any list is the range-indexed map of its `getD` entries. -/
theorem getD_range_map (l : List β) (d : β) :
    (List.range l.length).map (fun j => l.getD j d) = l := by
  induction l with
  | nil => rfl
  | cons x xs ih =>
    rw [List.length_cons, List.range_succ_eq_map, List.map_cons, List.map_map]
    congr 1

theorem zipWith_map_same (f : β → β → β) (u v : γ → β) :
    ∀ t : List γ, List.zipWith f (t.map u) (t.map v) = t.map fun e => f (u e) (v e) := by
  intro t
  induction t with
  | nil => rfl
  | cons x xs ih => simp [List.zipWith_cons_cons, ih]

/-- Folding a `zipWith` over index-maps of the same list is the map of
the pointwise folds. -/
theorem foldl_zipWith_map (f2 : β → β → β) (t : List γ) (F : Nat → γ → β) :
    ∀ (js : List Nat) (g0 : γ → β),
      (js.map fun j => t.map (F j)).foldl (List.zipWith f2) (t.map g0)
        = t.map fun e => (js.map fun j => F j e).foldl f2 (g0 e) := by
  intro js
  induction js with
  | nil => intro g0; rfl
  | cons j js ih =>
    intro g0
    simp only [List.map_cons, List.foldl_cons]
    rw [zipWith_map_same, ih]

theorem concatAxis_flatten [Inhabited α] {r : Nat} (ls : List (Tensor α (r + 1)))
    (h : ls ≠ []) : concatAxis 0 ls = ls.flatten := by
  cases ls with
  | nil => exact absurd rfl h
  | cons p ps =>
    show ps.foldl (concat2 0) p = (p :: ps).flatten
    have hc : (concat2 (α := α) (r := r + 1) 0) = fun t u => t ++ u := rfl
    rw [hc, List.flatten_cons]
    exact foldl_append_eq_flatten ps p

/-- Per-axis round trip: concatenating the parts of `np.array_split`
along the same axis recovers the tensor. -/
theorem concatAxis_splitAxis [Inhabited α] :
    ∀ {r : Nat} (a k : Nat) (t : Tensor α r), a < r → 0 < k →
      concatAxis a (splitAxis k a t) = t
  | 0, a, _, _, ha, _ => absurd ha (Nat.not_lt_zero a)
  | r + 1, 0, k, t, _, hk => by
    show concatAxis 0 (array_split t k) = t
    have hne : array_split t k ≠ [] := by
      have hlen := length_array_split t k hk
      intro hc
      rw [hc] at hlen
      simp only [List.length_nil] at hlen
      omega
    rw [concatAxis_flatten _ hne, flatten_array_split t k hk]
  | r + 1, a + 1, k, t, ha, hk => by
    obtain ⟨k'', rfl⟩ : ∃ k'', k = k'' + 1 := ⟨k - 1, by omega⟩
    show concatAxis (a + 1)
        ((List.range (k'' + 1)).map fun j =>
          (t : List (Tensor α r)).map fun e => (splitAxis (k'' + 1) a e).getD j default)
      = t
    rw [List.range_succ_eq_map, List.map_cons]
    show (((List.range k'').map Nat.succ).map fun j =>
          (t : List (Tensor α r)).map fun e => (splitAxis (k'' + 1) a e).getD j default).foldl
        (List.zipWith (concat2 a))
        ((t : List (Tensor α r)).map fun e => (splitAxis (k'' + 1) a e).getD 0 default)
      = t
    rw [foldl_zipWith_map (concat2 a) (t : List (Tensor α r))]
    have hpt : ∀ e ∈ (t : List (Tensor α r)),
        (((List.range k'').map Nat.succ).map
            (fun j => (splitAxis (k'' + 1) a e).getD j default)).foldl
          (concat2 a) ((splitAxis (k'' + 1) a e).getD 0 default) = id e := by
      intro e _
      have hlen : (splitAxis (k'' + 1) a e).length = k'' + 1 :=
        length_splitAxis a (k'' + 1) e (by omega) (by omega)
      have h2 : splitAxis (k'' + 1) a e
          = (splitAxis (k'' + 1) a e).getD 0 default
            :: (((List.range k'').map Nat.succ).map
                fun j => (splitAxis (k'' + 1) a e).getD j default) := by
        conv_lhs => rw [← getD_range_map (splitAxis (k'' + 1) a e) default, hlen,
          List.range_succ_eq_map, List.map_cons]
      have h3 : concatAxis a (splitAxis (k'' + 1) a e) = e :=
        concatAxis_splitAxis a (k'' + 1) e (by omega) (by omega)
      rw [h2] at h3
      exact h3
    rw [List.map_congr_left hpt, List.map_id]

/-- The sum of the lengths of equal-length lists. -/
theorem length_sum_const {b : Nat} :
    ∀ ls : List (List β), (∀ l ∈ ls, l.length = b) →
      (ls.map List.length).sum = ls.length * b := by
  intro ls
  induction ls with
  | nil => intro _; simp
  | cons l t ih =>
    intro h
    simp only [List.map_cons, List.sum_cons, List.length_cons,
      ih fun x hx => h x (List.mem_cons_of_mem _ hx), h l (List.mem_cons_self _ _)]
    ring

theorem flatten_drop_const {b : Nat} :
    ∀ (i : Nat) (ls : List (List β)), (∀ l ∈ ls, l.length = b) →
      ls.flatten.drop (i * b) = (ls.drop i).flatten := by
  intro i
  induction i with
  | zero => intro ls _; simp
  | succ i ih =>
    intro ls h
    cases ls with
    | nil => simp
    | cons l t =>
      rw [List.flatten_cons,
        show (i + 1) * b = l.length + i * b from by
          rw [h l (List.mem_cons_self _ _)]; ring,
        List.drop_append, ih t fun x hx => h x (List.mem_cons_of_mem _ hx)]
      rfl

/-- Regrouping a flattening of equal-length lists by that common length
recovers the original grouping. -/
theorem chunksOf_flatten {b : Nat} (hb : 0 < b) (ls : List (List β))
    (h : ∀ l ∈ ls, l.length = b) : chunksOf ls.flatten b = ls := by
  have hlen : ls.flatten.length = ls.length * b := by
    rw [List.length_flatten, length_sum_const ls h]
  have hcount : (ls.flatten.length + b - 1) / b = ls.length := by
    rw [hlen, show ls.length * b + b - 1 = b - 1 + ls.length * b from by omega,
      Nat.add_mul_div_right _ _ hb, Nat.div_eq_of_lt (by omega), Nat.zero_add]
  rw [chunksOf, hcount]
  conv_rhs => rw [← getD_range_map ls []]
  refine List.map_congr_left fun i hi => ?_
  have hiL : i < ls.length := List.mem_range.mp hi
  rw [flatten_drop_const i ls h, List.drop_eq_getElem_cons hiL, List.flatten_cons,
    List.take_left' (h ls[i] (List.getElem_mem hiL)),
    List.getD_eq_getElem ls [] hiL]

theorem length_splitSteps [Inhabited α] {r : Nat} :
    ∀ (bs : List Nat) (a : Nat) (res : List (Tensor α r)),
      a + bs.length ≤ r → (∀ b ∈ bs, 0 < b) →
      (splitSteps bs a res).length = res.length * bs.prod := by
  intro bs
  induction bs with
  | nil => intro a res _ _; simp [splitSteps]
  | cons b bs ih =>
    intro a res hr hpos
    rw [splitSteps, ih (a + 1) _ (by simp at hr ⊢; omega)
      fun x hx => hpos x (List.mem_cons_of_mem _ hx)]
    have hS : ((res.map (splitAxis b a)).flatten).length = res.length * b := by
      rw [List.length_flatten, length_sum_const (res.map (splitAxis b a))
        (fun l hl => by
          obtain ⟨x, _, rfl⟩ := List.mem_map.mp hl
          exact length_splitAxis a b x (by simp at hr; omega)
            (hpos b (List.mem_cons_self _ _))),
        List.length_map]
    rw [hS, List.prod_cons]
    ring

/-- The merge loop inverts the split loop, axis by axis. -/
theorem mergeSteps_splitSteps [Inhabited α] {r : Nat} :
    ∀ (bs : List Nat) (a : Nat) (res : List (Tensor α r)),
      a + bs.length ≤ r → (∀ b ∈ bs, 0 < b) →
      mergeSteps bs a (splitSteps bs a res) = res := by
  intro bs
  induction bs with
  | nil => intro a res _ _; rfl
  | cons b bs ih =>
    intro a res hr hpos
    have hb : 0 < b := hpos b (List.mem_cons_self _ _)
    have ha : a < r := by simp at hr; omega
    rw [splitSteps, mergeSteps,
      ih (a + 1) _ (by simp at hr ⊢; omega)
        fun x hx => hpos x (List.mem_cons_of_mem _ hx),
      chunksOf_flatten hb _ (fun l hl => by
        obtain ⟨x, _, rfl⟩ := List.mem_map.mp hl
        exact length_splitAxis a b x ha hb),
      List.map_map]
    exact (List.map_congr_left fun x _ =>
      concatAxis_splitAxis a b x ha hb).trans (List.map_id res)

theorem getD_splitBySizes_length :
    ∀ (ss : List Nat) (xs : List β), ss.sum ≤ xs.length →
      ∀ i, i < ss.length → ((splitBySizes ss xs).getD i []).length = ss.getD i 0 := by
  intro ss
  induction ss with
  | nil => intro xs _ i hi; simp at hi
  | cons s t ih =>
    intro xs hsum i hi
    rw [List.sum_cons] at hsum
    cases i with
    | zero =>
      simp only [splitBySizes, List.getD_cons_zero, List.length_take]
      omega
    | succ i =>
      simp only [splitBySizes, List.getD_cons_succ]
      exact ih (xs.drop s) (by simp only [List.length_drop]; omega) i
        (by simpa using hi)

theorem getD_splitSizes (n k i : Nat) (hk : 0 < k) (hi : i < k) :
    (splitSizes n k).getD i 0 = n / k + (if i < n % k then 1 else 0) := by
  have hm : n % k < k := Nat.mod_lt n hk
  rw [splitSizes, List.getD_eq_getElem?_getD]
  by_cases h : i < n % k
  · rw [List.getElem?_append_left (by simpa using h)]
    simp [List.getElem?_replicate, h]
  · rw [List.getElem?_append_right (by simpa using h)]
    simp only [List.length_replicate, List.getElem?_replicate,
      show i - n % k < k - n % k from by omega, reduceIte, if_pos, Option.getD_some]
    simp [h]

theorem getElem?_flatten_const {m : Nat} :
    ∀ (ls : List (List β)) (i j : Nat), (∀ l ∈ ls, l.length = m) →
      i < ls.length → j < m →
      ls.flatten[i * m + j]? = (ls.getD i [])[j]? := by
  intro ls
  induction ls with
  | nil => intro i j _ hi _; simp at hi
  | cons l t ih =>
    intro i j h hi hj
    cases i with
    | zero =>
      rw [List.flatten_cons, Nat.zero_mul, Nat.zero_add,
        List.getElem?_append_left (by rw [h l (List.mem_cons_self _ _)]; exact hj)]
      rfl
    | succ i =>
      rw [List.flatten_cons,
        show (i + 1) * m + j = l.length + (i * m + j) from by
          rw [h l (List.mem_cons_self _ _)]; ring,
        List.getElem?_append_right (Nat.le_add_right _ _),
        Nat.add_sub_cancel_left]
      exact ih i j (fun x hx => h x (List.mem_cons_of_mem _ hx)) (by simpa using hi) hj

/-! ## Claims about `block_split` / `block_merge` -/

/-- C2: block round trip.  For every tensor of rank `r` and every block
specification of length `r` with all entries at least 1 — no requirement
that the counts divide the axis sizes — merging the split returns the
tensor exactly. -/
theorem block_split_merge_roundtrip [Inhabited α] {r : Nat} (t : Tensor α r)
    (blocks : List Nat) (hlen : blocks.length = r) (hpos : ∀ b ∈ blocks, 1 ≤ b) :
    (block_split t blocks).bind (fun l => block_merge l blocks) = .ok t := by
  rw [block_split, if_neg (by omega : ¬blocks.length ≠ r)]
  show block_merge (splitSteps blocks 0 [t]) blocks = .ok t
  have hL : (splitSteps blocks 0 [t]).length = blocks.prod := by
    rw [length_splitSteps blocks 0 [t] (by omega) hpos]
    simp
  rw [block_merge, if_neg (fun h => h hL),
    mergeSteps_splitSteps blocks 0 [t] (by omega) hpos]
  rfl

/-- Witness for C2: the 4×4 array of the source docstring with block
spec (2,2) round trips. -/
theorem block_split_merge_roundtrip_witness :
    (block_split (α := Nat) (r := 2)
        [[0, 1, 2, 3], [4, 5, 6, 7], [8, 9, 10, 11], [12, 13, 14, 15]] [2, 2]).bind
      (fun l => block_merge l [2, 2])
      = .ok [[0, 1, 2, 3], [4, 5, 6, 7], [8, 9, 10, 11], [12, 13, 14, 15]] :=
  block_split_merge_roundtrip
    [[0, 1, 2, 3], [4, 5, 6, 7], [8, 9, 10, 11], [12, 13, 14, 15]] [2, 2]
    rfl (by decide)

/-- C7: uneven 1-D partition.  Splitting an axis of size `n` into `k ≥ 1`
parts yields contiguous parts (their concatenation is the axis), the
`i`-th part has size `n/k + 1` for `i < n % k` and `n/k` otherwise (so
sizes differ pairwise by at most 1 with the remainder on the leading
parts), and merging the parts reconstructs the axis exactly. -/
theorem block_split_uneven_partition [Inhabited α] (xs : Tensor α 1) (k : Nat)
    (hk : 1 ≤ k) :
    block_split xs [k] = .ok (array_split xs k) ∧
    (array_split xs k).length = k ∧
    (∀ i, i < k → ((array_split xs k).getD i []).length
        = (xs : List α).length / k
          + (if i < (xs : List α).length % k then 1 else 0)) ∧
    (∀ i j, i ≤ j → j < k →
      ((array_split xs k).getD j []).length
          ≤ ((array_split xs k).getD i []).length ∧
      ((array_split xs k).getD i []).length
          ≤ ((array_split xs k).getD j []).length + 1) ∧
    (array_split xs k).flatten = xs ∧
    block_merge (array_split xs k) [k] = .ok xs := by
  have hk0 : 0 < k := hk
  have hsp : splitSteps [k] 0 [xs] = array_split xs k := by
    simp only [splitSteps, List.map_cons, List.map_nil, List.flatten_cons,
      List.flatten_nil, List.append_nil]
    rfl
  have hsizes : ∀ i, i < k → ((array_split xs k).getD i []).length
      = (xs : List α).length / k
        + (if i < (xs : List α).length % k then 1 else 0) := by
    intro i hi
    rw [array_split,
      getD_splitBySizes_length (splitSizes (xs : List α).length k) xs
        (le_of_eq (sum_splitSizes _ _ hk0)) i
        (by rw [length_splitSizes _ _ hk0]; exact hi),
      getD_splitSizes _ _ _ hk0 hi]
  refine ⟨?_, length_array_split xs k hk0, hsizes, ?_, flatten_array_split xs k hk0, ?_⟩
  · rw [block_split, if_neg (by simp), hsp]
  · intro i j hij hj
    rw [hsizes i (by omega), hsizes j hj]
    constructor
    · split_ifs <;> omega
    · split_ifs <;> omega
  · have hL : (array_split xs k).length = k := length_array_split xs k hk0
    rw [block_merge, if_neg (fun h => h (by rw [hL]; simp)), ← hsp,
      mergeSteps_splitSteps [k] 0 [xs] (by simp) (by
        intro b hb
        simp only [List.mem_singleton] at hb
        omega)]
    rfl

/-- Witness for C7 at shape `(5,)`, block spec `(2,)`: the parts are
`[0,1,2]` then `[3,4]` (sizes 3 and 2) and the round trip holds. -/
theorem block_split_uneven_partition_witness :
    array_split ([0, 1, 2, 3, 4] : Tensor Nat 1) 2 = [[0, 1, 2], [3, 4]] ∧
    (block_split ([0, 1, 2, 3, 4] : Tensor Nat 1) [2]
        = (Except.ok (array_split [0, 1, 2, 3, 4] 2)
            : Except String (List (Tensor Nat 1))) ∧
      (array_split ([0, 1, 2, 3, 4] : Tensor Nat 1) 2).length = 2 ∧
      (∀ i, i < 2 → ((array_split ([0, 1, 2, 3, 4] : Tensor Nat 1) 2).getD i []).length
          = ([0, 1, 2, 3, 4] : List Nat).length / 2
            + (if i < ([0, 1, 2, 3, 4] : List Nat).length % 2 then 1 else 0)) ∧
      (∀ i j, i ≤ j → j < 2 →
        ((array_split ([0, 1, 2, 3, 4] : Tensor Nat 1) 2).getD j []).length
            ≤ ((array_split ([0, 1, 2, 3, 4] : Tensor Nat 1) 2).getD i []).length ∧
        ((array_split ([0, 1, 2, 3, 4] : Tensor Nat 1) 2).getD i []).length
            ≤ ((array_split ([0, 1, 2, 3, 4] : Tensor Nat 1) 2).getD j []).length + 1) ∧
      (array_split ([0, 1, 2, 3, 4] : Tensor Nat 1) 2).flatten = [0, 1, 2, 3, 4] ∧
      block_merge (array_split ([0, 1, 2, 3, 4] : Tensor Nat 1) 2) [2]
        = (Except.ok [0, 1, 2, 3, 4] : Except String (Tensor Nat 1))) :=
  ⟨rfl, block_split_uneven_partition [0, 1, 2, 3, 4] 2 (by decide)⟩

/-- C8: block enumeration order (rank 2).  The flat sequence of
`block_split` is the concatenation, over the axis-0 parts in order, of
each part's axis-1 sub-parts — axis 0 is the slowest-varying index and
the last axis the fastest: the `(i,j)` sub-block sits at flat position
`i*k1 + j`.  `block_merge` consumes its input in exactly that order: it
first groups consecutive runs of `k1` blocks and concatenates each along
the last axis, then concatenates the results along axis 0. -/
theorem block_enumeration_order [Inhabited α] (t : Tensor α 2) (k0 k1 : Nat)
    (h0 : 1 ≤ k0) (h1 : 1 ≤ k1) :
    block_split t [k0, k1]
      = .ok (((splitAxis k0 0 t).map (splitAxis k1 1)).flatten) ∧
    (∀ i j, i < k0 → j < k1 →
      (((splitAxis k0 0 t).map (splitAxis k1 1)).flatten)[i * k1 + j]?
        = (splitAxis k1 1 ((splitAxis k0 0 t).getD i default))[j]?) ∧
    (∀ l : List (Tensor α 2), l.length = k0 * k1 →
      block_merge l [k0, k1]
        = .ok (concatAxis 0 ((chunksOf l k1).map (concatAxis 1)))) := by
  have hlen0 : (splitAxis k0 0 t).length = k0 :=
    length_splitAxis 0 k0 t (by omega) (by omega)
  refine ⟨?_, ?_, ?_⟩
  · rw [block_split, if_neg (by simp)]
    simp only [splitSteps, List.map_cons, List.map_nil, List.flatten_cons,
      List.flatten_nil, List.append_nil]
  · intro i j hi hj
    have hin : ∀ l ∈ (splitAxis k0 0 t).map (splitAxis k1 1), l.length = k1 := by
      intro l hl
      obtain ⟨x, _, rfl⟩ := List.mem_map.mp hl
      exact length_splitAxis 1 k1 x (by omega) (by omega)
    rw [getElem?_flatten_const ((splitAxis k0 0 t).map (splitAxis k1 1)) i j hin
      (by rw [List.length_map, hlen0]; exact hi) hj]
    have hiL : i < (splitAxis k0 0 t).length := by rw [hlen0]; exact hi
    rw [List.getD_eq_getElem?_getD, List.getElem?_map,
      List.getElem?_eq_getElem hiL]
    simp only [Option.map_some, Option.map_some', Option.getD_some]
    rw [List.getD_eq_getElem _ default hiL]
  · intro l hl
    have hprod : [k0, k1].prod = k0 * k1 := by simp
    rw [block_merge, if_neg (fun h => h (by rw [hl, hprod]))]
    have hM1 : mergeSteps [k1] 1 l = (chunksOf l k1).map (concatAxis 1) := rfl
    have hMlen : ((chunksOf l k1).map (concatAxis 1)).length = k0 := by
      rw [List.length_map, chunksOf, List.length_map, List.length_range, hl,
        show k0 * k1 + k1 - 1 = k1 - 1 + k0 * k1 from by omega,
        Nat.add_mul_div_right _ _ (by omega : 0 < k1),
        Nat.div_eq_of_lt (by omega), Nat.zero_add]
    have hCh : chunksOf ((chunksOf l k1).map (concatAxis 1)) k0
        = [(chunksOf l k1).map (concatAxis 1)] := by
      rw [chunksOf, hMlen,
        show k0 + k0 - 1 = k0 - 1 + 1 * k0 from by omega,
        Nat.add_mul_div_right _ _ (by omega : 0 < k0),
        Nat.div_eq_of_lt (by omega), Nat.zero_add,
        show List.range 1 = [0] from rfl, List.map_cons,
        List.map_nil, Nat.zero_mul, List.drop_zero]
      rw [List.take_of_length_le (by rw [hMlen])]
    show Except.ok ((mergeSteps [k0, k1] 0 l).getD 0 default) = _
    rw [show mergeSteps [k0, k1] 0 l
        = (chunksOf (mergeSteps [k1] 1 l) k0).map (concatAxis 0) from rfl,
      hM1, hCh, List.map_cons, List.map_nil]
    rfl

/-- Witness for C8: a 4×4 array with `k0 = k1 = 2`; additionally checks
the concrete flat order of the source docstring example. -/
theorem block_enumeration_order_witness :
    (block_split (α := Nat) (r := 2)
        [[0, 1, 2, 3], [4, 5, 6, 7], [8, 9, 10, 11], [12, 13, 14, 15]] [2, 2]
      = (Except.ok
          (((splitAxis 2 0 ([[0, 1, 2, 3], [4, 5, 6, 7], [8, 9, 10, 11],
              [12, 13, 14, 15]] : Tensor Nat 2)).map (splitAxis 2 1)).flatten)
          : Except String (List (Tensor Nat 2))) ∧
      (∀ i j, i < 2 → j < 2 →
        (((splitAxis 2 0 ([[0, 1, 2, 3], [4, 5, 6, 7], [8, 9, 10, 11],
              [12, 13, 14, 15]] : Tensor Nat 2)).map (splitAxis 2 1)).flatten
            : List (Tensor Nat 2))[i * 2 + j]?
          = (splitAxis 2 1 ((splitAxis 2 0 ([[0, 1, 2, 3], [4, 5, 6, 7], [8, 9, 10, 11],
              [12, 13, 14, 15]] : Tensor Nat 2)).getD i default)
            : List (Tensor Nat 2))[j]?) ∧
      (∀ l : List (Tensor Nat 2), l.length = 2 * 2 →
        block_merge l [2, 2]
          = .ok (concatAxis 0 ((chunksOf l 2).map (concatAxis 1))))) ∧
    block_split (α := Nat) (r := 2)
        [[0, 1, 2, 3], [4, 5, 6, 7], [8, 9, 10, 11], [12, 13, 14, 15]] [2, 2]
      = (Except.ok [[[0, 1], [4, 5]], [[2, 3], [6, 7]],
          [[8, 9], [12, 13]], [[10, 11], [14, 15]]]
          : Except String (List (Tensor Nat 2))) :=
  ⟨block_enumeration_order
      [[0, 1, 2, 3], [4, 5, 6, 7], [8, 9, 10, 11], [12, 13, 14, 15]] 2 2
      (by decide) (by decide),
   rfl⟩

end GeoUtils
